import Mathlib

/-!
Shallow embedding of the lambdatoy evaluator (src/lambdatoy.py) and proofs
about its term model, alpha-equality, substitution, reduction engine, lexer
and parser.

Modelling conventions:
* Terms are immutable trees; the Python copy method is the identity here.
* The process-wide counter gen (itertools.count(1)) that feeds the
  fresh-variable generator in Lambda.__eq__ is threaded explicitly: every
  function whose Python original can call __eq__ takes the current counter
  value and returns the updated one.
* Python floats never participate in arithmetic in this program, so a float
  literal is modelled by the text of its numeral token.
* Recursions that are not structural in Python (the alpha-equality, which
  recurses on substituted bodies, and the reduction loop, which can diverge)
  take an explicit fuel argument; adequacy of the fuel for the equality check
  is proved below (eqB_mono), and the reduction loop is genuinely partial.
-/

/-- Literal payload of a Val node. Python stores an int, a float or a str;
the float is modelled by the numeral text of its token. -/
inductive Value
| int (n : Int)
| float (text : String)
| str (s : String)
deriving DecidableEq

/-- The four AST node classes of the program: Lambda, Apply, Val and Var. -/
inductive Term
| Lambda (var : String) (body : Term)
| Apply (fn : Term) (expr : Term)
| Val (value : Value)
| Var (name : String)
deriving DecidableEq

/-- Number of nodes of a term; used as fuel bound for the equality check. -/
def Term.size : Term → Nat
| .Lambda _ b => b.size + 1
| .Apply f a => f.size + a.size + 1
| .Val _ => 1
| .Var _ => 1

/-- The subst method of each node class. Lambda.subst returns the node
unchanged when the substituted name equals its own parameter, and performs no
renaming otherwise; Var.subst returns (a copy of) the replacement on a name
match; Val.subst is the identity. -/
def subst : Term → String → Term → Term
| .Lambda v b, var, expr => if var = v then .Lambda v b else .Lambda v (subst b var expr)
| .Apply f a, var, expr => .Apply (subst f var expr) (subst a var expr)
| .Val u, _, _ => .Val u
| .Var m, var, expr => if m = var then expr else .Var m

/-- The fresh-variable name used by Lambda.__eq__: Var("x" + str(next(gen)))
where gen is the process-wide counter. -/
def fresh (c : Nat) : String := "x" ++ toString c

/-- Fuelled embedding of the __eq__ methods (the alpha-equality check).
The counter value is the last argument and is returned updated: only a
Lambda-Lambda comparison draws from the counter. The fuel bounds the
recursion depth; size a + size b always suffices (see eqB_mono). -/
def eqB : Nat → Term → Term → Nat → Bool × Nat
| 0, _, _, c => (false, c)
| B+1, a, b, c =>
  match a, b with
  | .Lambda v p, .Lambda w q =>
      eqB B (subst p v (.Var (fresh c))) (subst q w (.Var (fresh c))) (c+1)
  | .Apply f x, .Apply g y =>
      if (eqB B f g c).1 then eqB B x y (eqB B f g c).2 else (false, (eqB B f g c).2)
  | .Val u, .Val w => (decide (u = w), c)
  | .Var m, .Var n => (decide (m = n), c)
  | _, _ => (false, c)

/-- Alpha-equality of two terms at counter value c: the embedding of a == b,
returning the boolean outcome and the counter after the comparison. -/
def alpha_equal (a b : Term) (c : Nat) : Bool × Nat := eqB (a.size + b.size) a b c

/-- The beta_step method of each node class. An Apply whose function position
is syntactically a Lambda contracts directly (beta_redex); otherwise the
function position is stepped first and the argument is stepped only when the
function position made no progress, which is detected with the == check and
therefore consumes counter values. -/
def beta_step : Term → Nat → Term × Nat
| .Lambda v b, c =>
  let r := beta_step b c
  (.Lambda v r.1, r.2)
| .Apply f x, c =>
  match f with
  | .Lambda v b => (subst b v x, c)
  | _ =>
    let r := beta_step f c
    let e := alpha_equal f r.1 r.2
    if e.1 then
      let r2 := beta_step x e.2
      (.Apply r.1 r2.1, r2.2)
    else (.Apply r.1 x, e.2)
| .Val u, c => (.Val u, c)
| .Var n, c => (.Var n, c)

/-- The beta_left driver: repeatedly step until the == check finds two
consecutive results equal, then return the latter. The Python loop has no
step bound and can diverge, hence the fuel; none models a run that has not
yet stabilised within the given fuel. -/
def beta_left : Nat → Term → Nat → Option (Term × Nat)
| 0, _, _ => none
| fuel+1, t, c =>
  if (alpha_equal t (beta_step t c).1 (beta_step t c).2).1 then
    some ((beta_step t c).1, (alpha_equal t (beta_step t c).1 (beta_step t c).2).2)
  else beta_left fuel (beta_step t c).1 (alpha_equal t (beta_step t c).1 (beta_step t c).2).2

/-- The binding-substitution loop at the start of process_term: for each
(key, val) of the environment in insertion order, the current term t is
replaced by one beta_step of Apply(Lambda(key, t), val). -/
def applyKnown : List (String × Term) → Term → Nat → Term × Nat
| [], t, c => (t, c)
| kv :: rest, t, c =>
  let r := beta_step (.Apply (.Lambda kv.1 t) kv.2) c
  applyKnown rest r.1 r.2

/-- process_term: wrap-and-step every known binding into the term, then drive
the result to normal form with beta_left. -/
def process_term (env : List (String × Term)) (fuel : Nat) (t : Term) (c : Nat) :
    Option (Term × Nat) :=
  let r := applyKnown env t c
  beta_left fuel r.1 r.2

/-- All identifier occurrences in a term: bound parameters plus variable
names (labels appearing anywhere in the tree). -/
def namesOf : Term → List String
| .Lambda v b => v :: namesOf b
| .Apply f a => namesOf f ++ namesOf a
| .Val _ => []
| .Var n => [n]

/-- Helper of Val.__repr__: each embedded quote character is replaced by a
backslash followed by a quote. -/
def escapeQuotes : List Char → List Char
| [] => []
| ch :: rest =>
  if ch = '"' then '\\' :: '"' :: escapeQuotes rest else ch :: escapeQuotes rest

/-- Val.__repr__: a string value is wrapped in quotes with embedded quotes
backslash-escaped; other values print their text. -/
def reprVal : Value → String
| .str s => "\"" ++ String.mk (escapeQuotes s.toList) ++ "\""
| .int n => toString n
| .float text => text

/-! ## Lexer and parser (the Parser class and the TOKENS table) -/

/-- The symbol characters of the SYM character class of the identifier
pattern. -/
def SYM_CHARS : List Char := ['-', '+', '!', '#', '$', '%', '^', '&', '*', '?', ',', '/', '[', ']', '=']

/-- First character of an identifier: a letter, an underscore or a symbol. -/
def isIdentStart (ch : Char) : Bool := ch.isAlpha || ch = '_' || SYM_CHARS.contains ch

/-- Continuation character of an identifier: additionally a digit. -/
def isIdentCont (ch : Char) : Bool :=
  ch.isAlpha || ch.isDigit || ch = '_' || SYM_CHARS.contains ch

/-- Whitespace characters matched by the leading whitespace pattern of scan
(the ASCII portion of the Python whitespace class; all inputs considered
here are ASCII). -/
def isPySpace (ch : Char) : Bool :=
  ch = ' ' || ch = '\t' || ch = '\n' || ch = '\r' || ch = '\x0b' || ch = '\x0c'

/-- Greedy match of the IDENT pattern at the front of the input; returns the
matched characters and the rest. -/
def matchIdent : List Char → Option (List Char × List Char)
| [] => none
| ch :: rest =>
  if isIdentStart ch then
    let p := rest.span isIdentCont
    some (ch :: p.1, p.2)
  else none

/-- Greedy match of the number pattern: optional sign, digits, optional
fractional part introduced by a dot with at least one digit, optional
exponent part introduced by E with optional sign and at least one digit.
A part that cannot complete is not consumed, as with regex backtracking. -/
def matchNumber (cs : List Char) : Option (List Char × List Char) :=
  let sgn : List Char × List Char :=
    match cs with
    | ch :: rest => if ch = '-' || ch = '+' then ([ch], rest) else ([], cs)
    | [] => ([], cs)
  let digs := sgn.2.span Char.isDigit
  if digs.1.isEmpty then none
  else
    let frac : List Char × List Char :=
      match digs.2 with
      | '.' :: r =>
        let fd := r.span Char.isDigit
        if fd.1.isEmpty then ([], digs.2) else ('.' :: fd.1, fd.2)
      | _ => ([], digs.2)
    let expo : List Char × List Char :=
      match frac.2 with
      | 'E' :: r =>
        let es : List Char × List Char :=
          match r with
          | e :: r2 => if e = '-' || e = '+' then ([e], r2) else ([], r)
          | [] => ([], r)
        let ed := es.2.span Char.isDigit
        if ed.1.isEmpty then ([], frac.2) else ('E' :: (es.1 ++ ed.1), ed.2)
      | _ => ([], frac.2)
    some (sgn.1 ++ digs.1 ++ frac.1 ++ expo.1, expo.2)

/-- Match of the string pattern: a quote, exactly one character that is not a
quote, and a closing quote. This is the pattern as written in the TOKENS
table; it admits no other span length. -/
def matchString : List Char → Option (List Char × List Char)
| '"' :: ch :: '"' :: rest =>
  if ch = '"' then none else some (['"', ch, '"'], rest)
| _ => none

/-- Token classes of the TOKENS table, in its order. -/
inductive TokKind
| lparen
| rparen
| dot
| letT
| lambdaT
| number
| stringT
| varT
deriving DecidableEq

/-- Try the TOKENS patterns in table order at the front of the input; first
match wins. The let pattern is a colon followed by an identifier, the lambda
pattern an at-sign followed by an identifier; the returned word contains the
whole matched text including that leading character. -/
def tryTokens (cs : List Char) : Option (TokKind × List Char × List Char) :=
  match cs with
  | '(' :: rest => some (.lparen, ['('], rest)
  | ')' :: rest => some (.rparen, [')'], rest)
  | '.' :: rest => some (.dot, ['.'], rest)
  | ':' :: rest => (matchIdent rest).map (fun p => (.letT, ':' :: p.1, p.2))
  | '@' :: rest => (matchIdent rest).map (fun p => (.lambdaT, '@' :: p.1, p.2))
  | _ =>
    match matchNumber cs with
    | some p => some (.number, p.1, p.2)
    | none =>
      match matchString cs with
      | some p => some (.stringT, p.1, p.2)
      | none => (matchIdent cs).map (fun p => (.varT, p.1, p.2))

/-- Mutable scanner and parser state of the Parser object: the unconsumed
text, the 1-based position counter, the current token class and its text. -/
structure PState where
  s : List Char
  pos : Nat
  token : Option TokKind
  word : List Char
deriving DecidableEq

/-- Messages of the parse errors raised through Parser.error. -/
inductive PMsg
| eqExpected
| dotExpected
| rparenExpected
| unexpectedToken
| eofExpected
deriving DecidableEq

/-- Errors that escape the parse phase: a lexer failure carrying the position
counter and up to twenty characters of unconsumed text, a parser failure
carrying the position counter and a message, or fuel exhaustion of the
embedding (no Python counterpart; concrete runs below are given ample
fuel). -/
inductive PErr
| lex (pos : Nat) (near : List Char)
| parse (pos : Nat) (msg : PMsg)
| fuel
deriving DecidableEq

/-- The scan method: drop leading whitespace WITHOUT advancing the position
counter, then try the token table. On a match the position counter advances
by the length of the matched word only; at end of input the token becomes
none; otherwise the lexer error is raised with the current position
counter. -/
def scan (st : PState) : Except PErr PState :=
  let s1 := st.s.dropWhile isPySpace
  if s1.isEmpty then .ok { st with s := s1, token := none }
  else
    match tryTokens s1 with
    | some (k, w, rest) =>
        .ok { s := rest, pos := st.pos + w.length, token := some k, word := w }
    | none => .error (.lex st.pos (s1.take 20))

/-- Parse trees as the Python parser builds them. Python places the value
None where an empty expression was parsed, so a node child that can receive
such a result is represented by pnil. -/
inductive PTm
| pvar (name : String)
| pval (v : Value)
| plam (param : String) (body : PTm)
| papp (fn : PTm) (arg : PTm)
| pnil
deriving DecidableEq

/-- ApplyAccumulator.add: the accumulated result if absent becomes the new
term, otherwise the two are combined into an application. -/
def accAdd : PTm → PTm → PTm
| .pnil, t => t
| acc, t => .papp acc t

/-- Value of a number token: float when the text contains E or a dot at a
positive index, otherwise int. -/
def digitsToNat (cs : List Char) : Nat :=
  cs.foldl (fun a ch => a * 10 + (ch.toNat - '0'.toNat)) 0

/-- int() applied to the token text: optional sign then digits. -/
def parseIntChars : List Char → Int
| '-' :: rest => - (digitsToNat rest : Int)
| '+' :: rest => (digitsToNat rest : Int)
| w => (digitsToNat w : Int)

/-- The number branch of parse_expr: float when the text contains E or
contains a dot at an index greater than zero, else int. -/
def numberValue (w : List Char) : Value :=
  let isFloat : Bool :=
    w.contains 'E' ||
      (match w.findIdx? (fun ch => ch = '.') with
       | some i => decide (0 < i)
       | none => false)
  if isFloat then Value.float (String.mk w) else Value.int (parseIntChars w)

/-- The unescape step of the string branch of parse_expr. The Python call is
replace with a one-character pattern consisting of a quote and a
one-character replacement consisting of a quote, so it maps each quote to
itself. -/
def unescapeWord (cs : List Char) : List Char :=
  cs.map (fun ch => if ch = '"' then '"' else ch)

/-- Statements returned by parse: a Let object or a bare expression result,
either of which may carry the absent term. -/
inductive Stmt
| letS (name : String) (rhs : PTm)
| bare (t : PTm)
deriving DecidableEq

mutual

/-- Loop body of parse_expr with its accumulator: while the current token is
present and is neither a dot nor a closing parenthesis, parse one atom and
accumulate it. Recursive descent, one token of lookahead. -/
def parseExprLoop : Nat → PTm → PState → Except PErr (PTm × PState)
| 0, _, _ => .error .fuel
| fuel+1, acc, st =>
  match st.token with
  | none => .ok (acc, st)
  | some tk =>
    if tk = TokKind.dot ∨ tk = TokKind.rparen then .ok (acc, st)
    else
      match tk with
      | TokKind.lparen =>
        match scan st with
        | .error e => .error e
        | .ok st1 =>
          match parseExprLoop fuel PTm.pnil st1 with
          | .error e => .error e
          | .ok (e, st2) =>
            if st2.token = some TokKind.rparen then
              match scan st2 with
              | .error e2 => .error e2
              | .ok st3 => parseExprLoop fuel (accAdd acc e) st3
            else .error (.parse st2.pos PMsg.rparenExpected)
      | TokKind.lambdaT =>
        match parseLambda fuel st with
        | .error e => .error e
        | .ok (t, st1) => parseExprLoop fuel (accAdd acc t) st1
      | TokKind.varT =>
        match scan st with
        | .error e => .error e
        | .ok st1 => parseExprLoop fuel (accAdd acc (PTm.pvar (String.mk st.word))) st1
      | TokKind.stringT =>
        match scan st with
        | .error e => .error e
        | .ok st1 =>
          parseExprLoop fuel
            (accAdd acc (PTm.pval (Value.str (String.mk (unescapeWord ((st.word.drop 1).dropLast)))))) st1
      | TokKind.number =>
        match scan st with
        | .error e => .error e
        | .ok st1 => parseExprLoop fuel (accAdd acc (PTm.pval (numberValue st.word))) st1
      | _ => .error (.parse st.pos PMsg.unexpectedToken)

/-- parse_lambda: collect consecutive lambda tokens and wrap the following
expression right to left, so the last parameter binds innermost. Written as
direct recursion: each lambda token contributes one Lambda wrapping around
the result of the rest, which is exactly the reversed fold of the Python
loop; with no lambda token it is parse_expr. -/
def parseLambda : Nat → PState → Except PErr (PTm × PState)
| 0, _ => .error .fuel
| fuel+1, st =>
  if st.token = some TokKind.lambdaT then
    match scan st with
    | .error e => .error e
    | .ok st1 =>
      match parseLambda fuel st1 with
      | .error e => .error e
      | .ok (body, st2) => .ok (PTm.plam (String.mk (st.word.drop 1)) body, st2)
  else parseExprLoop fuel PTm.pnil st

end

/-- parse_expr: run the accumulator loop starting from the absent term. -/
def parse_expr (fuel : Nat) (st : PState) : Except PErr (PTm × PState) :=
  parseExprLoop fuel PTm.pnil st

/-- parse_statements: while a token is present, parse a let statement or a
bare expression, require the terminating dot, and continue. -/
def parse_statements : Nat → PState → Except PErr (List Stmt × PState)
| 0, _ => .error .fuel
| fuel+1, st =>
  match st.token with
  | none => .ok ([], st)
  | some tk =>
    let finish : Stmt → PState → Except PErr (List Stmt × PState) := fun stmt st1 =>
      if st1.token = some TokKind.dot then
        match scan st1 with
        | .error e => .error e
        | .ok st2 =>
          match parse_statements fuel st2 with
          | .error e => .error e
          | .ok (rest, st3) => .ok (stmt :: rest, st3)
      else .error (.parse st1.pos PMsg.dotExpected)
    if tk = TokKind.letT then
      let ident := String.mk (st.word.drop 1)
      match scan st with
      | .error e => .error e
      | .ok st1 =>
        if st1.token = some TokKind.varT ∧ st1.word = ['='] then
          match scan st1 with
          | .error e => .error e
          | .ok st2 =>
            match parse_expr fuel st2 with
            | .error e => .error e
            | .ok (e, st3) => finish (Stmt.letS ident e) st3
        else .error (.parse st1.pos PMsg.eqExpected)
    else
      match parse_expr fuel st with
      | .error e => .error e
      | .ok (e, st1) => finish (Stmt.bare e) st1

/-- Parser.parse: initialise the state with the whole input and position one,
scan the first token, parse all statements, and reject trailing input. -/
def parseProgram (fuel : Nat) (input : String) : Except PErr (List Stmt) :=
  match scan { s := input.toList, pos := 1, token := none, word := [] } with
  | .error e => .error e
  | .ok st1 =>
    match parse_statements fuel st1 with
    | .error e => .error e
    | .ok (res, st2) =>
      if st2.token.isSome then .error (.parse st2.pos PMsg.eofExpected)
      else .ok res

/-! ## Further definitions used by the statements below -/

/-- Sequential substitution of every environment binding into a term, in
insertion order: the claimed net effect of the wrap-and-step loop of
process_term. -/
def substAll (env : List (String × Term)) (t : Term) : Term :=
  env.foldl (fun a kv => subst a kv.1 kv.2) t

/-- Traces of the beta_left loop: from the pair of a term and a counter, any
number of iterations may be taken, each consisting of one beta_step whose ==
check against its source term returned false, threading the counter through
both. -/
inductive Iter : Term → Nat → Term → Nat → Prop
| refl (t : Term) (c : Nat) : Iter t c t c
| step (t : Term) (c : Nat) {u : Term} {cu : Nat}
    (hne : (alpha_equal t (beta_step t c).1 (beta_step t c).2).1 = false)
    (htail : Iter (beta_step t c).1
      (alpha_equal t (beta_step t c).1 (beta_step t c).2).2 u cu) :
    Iter t c u cu

/-! ## Auxiliary lemmas -/

/-- Every term has at least one node. -/
theorem Term.size_pos : ∀ t : Term, 0 < t.size := by
  intro t
  cases t <;> simp only [Term.size] <;> omega

/-- Substituting a variable for a name preserves the node count: the only
replacement the equality check ever substitutes is a fresh Var, which has
the same size as the Var node it replaces. -/
theorem subst_var_size (t : Term) (n x : String) :
    (subst t n (Term.Var x)).size = t.size := by
  induction t with
  | Lambda v b ih =>
    simp only [subst]
    split
    · rfl
    · simp only [Term.size, ih]
  | Apply f a ihf iha => simp only [subst, Term.size, ihf, iha]
  | Val u => rfl
  | Var m =>
    simp only [subst]
    split
    · rfl
    · rfl

/-- Fuel adequacy of the equality check: any fuel of at least the combined
size of the compared terms produces one and the same result, so the fuelled
eqB faithfully embeds the (always terminating) Python recursion. -/
theorem eqB_mono : ∀ (B B2 : Nat) (a b : Term) (c : Nat),
    a.size + b.size ≤ B → a.size + b.size ≤ B2 → eqB B a b c = eqB B2 a b c := by
  intro B
  induction B with
  | zero =>
    intro B2 a b c h _
    have ha := a.size_pos
    have hb := b.size_pos
    exact False.elim (by omega)
  | succ B ih =>
    intro B2 a b c hB hB2
    cases B2 with
    | zero =>
      have ha := a.size_pos
      have hb := b.size_pos
      exact False.elim (by omega)
    | succ B2 =>
      cases a with
      | Lambda v p =>
        cases b with
        | Lambda w q =>
          simp only [eqB]
          apply ih
          · rw [subst_var_size, subst_var_size]
            simp only [Term.size] at hB
            omega
          · rw [subst_var_size, subst_var_size]
            simp only [Term.size] at hB2
            omega
        | Apply g y => rfl
        | Val u => rfl
        | Var m => rfl
      | Apply f x =>
        cases b with
        | Lambda w q => rfl
        | Apply g y =>
          simp only [eqB]
          have hfg : eqB B f g c = eqB B2 f g c := by
            apply ih
            · simp only [Term.size] at hB; omega
            · simp only [Term.size] at hB2; omega
          rw [hfg]
          by_cases hcond : (eqB B2 f g c).1 = true
          · rw [if_pos hcond, if_pos hcond]
            apply ih
            · simp only [Term.size] at hB; omega
            · simp only [Term.size] at hB2; omega
          · rw [if_neg hcond, if_neg hcond]
        | Val u => rfl
        | Var m => rfl
      | Val u =>
        cases b with
        | Lambda w q => rfl
        | Apply g y => rfl
        | Val w => rfl
        | Var m => rfl
      | Var m =>
        cases b with
        | Lambda w q => rfl
        | Apply g y => rfl
        | Val w => rfl
        | Var n => rfl

/-- The equality check is symmetric in its two terms at equal fuel and equal
starting counter, in both its boolean outcome and its final counter. -/
theorem eqB_symm : ∀ (B : Nat) (a b : Term) (c : Nat), eqB B a b c = eqB B b a c := by
  intro B
  induction B with
  | zero => intro a b c; rfl
  | succ B ih =>
    intro a b c
    cases a with
    | Lambda v p =>
      cases b with
      | Lambda w q =>
        simp only [eqB]
        exact ih _ _ _
      | Apply g y => rfl
      | Val u => rfl
      | Var m => rfl
    | Apply f x =>
      cases b with
      | Lambda w q => rfl
      | Apply g y =>
        simp only [eqB]
        rw [ih f g c]
        by_cases hcond : (eqB B g f c).1 = true
        · rw [if_pos hcond, if_pos hcond, ih x y]
        · rw [if_neg hcond, if_neg hcond]
      | Val u => rfl
      | Var m => rfl
    | Val u =>
      cases b with
      | Lambda w q => rfl
      | Apply g y => rfl
      | Val w =>
        simp only [eqB, Prod.mk.injEq]
        exact ⟨decide_eq_decide.mpr eq_comm, trivial⟩
      | Var m => rfl
    | Var m =>
      cases b with
      | Lambda w q => rfl
      | Apply g y => rfl
      | Val w => rfl
      | Var n =>
        simp only [eqB, Prod.mk.injEq]
        exact ⟨decide_eq_decide.mpr eq_comm, trivial⟩

/-- The equality check accepts any term compared with itself, at any counter,
given adequate fuel. -/
theorem eqB_refl : ∀ (B : Nat) (t : Term) (c : Nat),
    2 * t.size ≤ B → (eqB B t t c).1 = true := by
  intro B
  induction B with
  | zero =>
    intro t c h
    have := t.size_pos
    exact False.elim (by omega)
  | succ B ih =>
    intro t c h
    cases t with
    | Lambda v b =>
      simp only [eqB]
      apply ih
      rw [subst_var_size]
      simp only [Term.size] at h
      omega
    | Apply f x =>
      simp only [eqB]
      have hf : (eqB B f f c).1 = true := by
        apply ih
        simp only [Term.size] at h
        omega
      rw [if_pos hf]
      apply ih
      simp only [Term.size] at h
      omega
    | Val u => simp [eqB]
    | Var n => simp [eqB]

/-- The wrap-and-step loop of process_term computes exactly the sequential
substitution of the environment, and never consumes the counter, because
every wrapped application is a syntactic redex and contracts directly. -/
theorem applyKnown_eq_substAll : ∀ (env : List (String × Term)) (t : Term) (c : Nat),
    applyKnown env t c = (substAll env t, c) := by
  intro env
  induction env with
  | nil => intro t c; rfl
  | cons kv rest ih => intro t c; exact ih (subst t kv.1 kv.2) c

/-! ## Claim theorems -/

/-- Claim C1: a beta_step applied to an Application whose function position
is syntactically an Abstraction, Apply(Lambda(v, body), arg), returns exactly
subst(body, v, arg), consuming no counter value. -/
theorem beta_step_redex (v : String) (body arg : Term) (c : Nat) :
    beta_step (Term.Apply (Term.Lambda v body) arg) c = (subst body v arg, c) := rfl

/-- Claim C3: substitution into an Abstraction returns the node itself when
its parameter equals the substituted name and otherwise rebuilds it around
the substituted body with the same parameter, with no renaming; in
particular, substituting a term with a free occurrence of the parameter
captures that occurrence, as the concrete second conjunct shows. -/
theorem subst_Lambda_no_renaming (p : String) (body : Term) (n : String) (r : Term) :
    subst (Term.Lambda p body) n r =
      (if n = p then Term.Lambda p body else Term.Lambda p (subst body n r)) ∧
    subst (Term.Lambda "p" (Term.Var "n")) "n" (Term.Var "p") =
      Term.Lambda "p" (Term.Var "p") :=
  ⟨rfl, by decide⟩

/-- Claim C7: the equality check (alpha-equivalence) accepts every term
compared with itself, and is symmetric in both its boolean outcome and its
resulting counter, at every starting counter value. -/
theorem alpha_equal_refl_symm (t a b : Term) (c : Nat) :
    (alpha_equal t t c).1 = true ∧ alpha_equal a b c = alpha_equal b a c := by
  constructor
  · show (eqB (t.size + t.size) t t c).1 = true
    exact eqB_refl _ t c (by omega)
  · show eqB (a.size + b.size) a b c = eqB (b.size + a.size) b a c
    rw [Nat.add_comm b.size a.size]
    exact eqB_symm _ a b c

/-- Claim C4, counterexample: at counter value 1 the fresh variable drawn by
an Abstraction comparison is named x1, which occurs in the compared term
Lambda("a", Var("x1")); consequently the check equates that term with
Lambda("b", Var("b")) at counter 1 although at counter 2, where no collision
occurs, the same pair is (correctly) distinguished. -/
theorem alpha_fresh_collision :
    fresh 1 ∈ namesOf (Term.Lambda "a" (Term.Var "x1")) ∧
    (alpha_equal (Term.Lambda "a" (Term.Var "x1")) (Term.Lambda "b" (Term.Var "b")) 1).1
      = true ∧
    (alpha_equal (Term.Lambda "a" (Term.Var "x1")) (Term.Lambda "b" (Term.Var "b")) 2).1
      = false := by
  refine ⟨by decide, by decide, by decide⟩

/-- Claim C4, amended: an Abstraction pair is compared by substituting into
both bodies one single common fresh variable, named x followed by the current
value of the process-wide counter, which is incremented for the recursive
comparison; that name is not guaranteed distinct from the names occurring in
the compared terms. -/
theorem alpha_equal_Lambda_common_fresh (v : String) (p : Term) (w : String) (q : Term)
    (c : Nat) :
    alpha_equal (Term.Lambda v p) (Term.Lambda w q) c =
      alpha_equal (subst p v (Term.Var (fresh c))) (subst q w (Term.Var (fresh c)))
        (c + 1) ∧
    fresh c = "x" ++ toString c := by
  constructor
  · show eqB ((p.size + 1) + (q.size + 1)) (Term.Lambda v p) (Term.Lambda w q) c = _
    have h1 : eqB ((p.size + 1) + (q.size + 1)) (Term.Lambda v p) (Term.Lambda w q) c =
        eqB ((p.size + 1) + q.size)
          (subst p v (Term.Var (fresh c))) (subst q w (Term.Var (fresh c))) (c + 1) := rfl
    rw [h1]
    apply eqB_mono
    · rw [subst_var_size, subst_var_size]
      omega
    · rw [subst_var_size, subst_var_size]
  · rfl

/-- Claim C5: whenever beta_left terminates within its fuel, the returned
term is the beta_step image of a previous iterate p that the loop reached
from the input by steps none of which was yet accepted by the == check, and
the == check between p and the returned term succeeded, yielding the final
counter: the loop stops at the first pair of consecutive results the check
equates and returns the latter. -/
theorem beta_left_returns_step_image : ∀ (fuel : Nat) (t : Term) (c : Nat) (r : Term)
    (cr : Nat), beta_left fuel t c = some (r, cr) →
    ∃ p cp, Iter t c p cp ∧ r = (beta_step p cp).1 ∧
      alpha_equal p (beta_step p cp).1 (beta_step p cp).2 = (true, cr) := by
  intro fuel
  induction fuel with
  | zero =>
    intro t c r cr h
    simp [beta_left] at h
  | succ fuel ih =>
    intro t c r cr h
    simp only [beta_left] at h
    by_cases hcond : (alpha_equal t (beta_step t c).1 (beta_step t c).2).1 = true
    · rw [if_pos hcond] at h
      have h2 := Option.some.inj h
      have hr : (beta_step t c).1 = r := congrArg Prod.fst h2
      have hc2 : (alpha_equal t (beta_step t c).1 (beta_step t c).2).2 = cr :=
        congrArg Prod.snd h2
      exact ⟨t, c, Iter.refl t c, hr.symm, Prod.ext hcond hc2⟩
    · rw [if_neg hcond] at h
      obtain ⟨p, cp, hIter, hr, heq⟩ := ih _ _ _ _ h
      have hfalse : (alpha_equal t (beta_step t c).1 (beta_step t c).2).1 = false := by
        revert hcond
        cases (alpha_equal t (beta_step t c).1 (beta_step t c).2).1 <;> simp
      exact ⟨p, cp, Iter.step t c hfalse hIter, hr, heq⟩

/-- Witness for claim C5: on ((λ x. x) 5) the loop terminates with fuel 2 and
returns Val 5, and the previous iterate promised by the theorem exists. -/
theorem beta_left_returns_step_image_witness :
    beta_left 2 (Term.Apply (Term.Lambda "x" (Term.Var "x")) (Term.Val (Value.int 5))) 1
      = some (Term.Val (Value.int 5), 1) ∧
    ∃ p cp,
      Iter (Term.Apply (Term.Lambda "x" (Term.Var "x")) (Term.Val (Value.int 5))) 1 p cp ∧
      Term.Val (Value.int 5) = (beta_step p cp).1 ∧
      alpha_equal p (beta_step p cp).1 (beta_step p cp).2 = (true, 1) :=
  ⟨rfl, beta_left_returns_step_image 2 _ 1 _ 1 rfl⟩

/-- Claim C9: the loop at the head of process_term turns the term into the
sequential substitution of every environment binding in insertion order,
each iteration being one beta_step of Apply(Lambda(name, t), value), which
contracts to subst(t, name, value); only after all bindings are applied does
the reduction-to-normal-form loop run, on exactly that substituted term. -/
theorem process_term_env_substitution (env : List (String × Term)) (t : Term) (c : Nat) :
    applyKnown env t c = (substAll env t, c) ∧
    (∀ (name : String) (value body : Term) (c0 : Nat),
      beta_step (Term.Apply (Term.Lambda name body) value) c0 = (subst body name value, c0)) ∧
    ∀ fuel, process_term env fuel t c = beta_left fuel (substAll env t) c := by
  refine ⟨applyKnown_eq_substAll env t c, fun _ _ _ _ => rfl, fun fuel => ?_⟩
  show beta_left fuel (applyKnown env t c).1 (applyKnown env t c).2 = _
  rw [applyKnown_eq_substAll]

/-- Claim C2, code behaviour at the failing inputs: the string pattern of the
TOKENS table matches a quoted span of exactly one character, so the
single-character literal lexes as a string token, while the empty span and
the two-character span match no pattern at all and raise the lexer error. -/
theorem string_token_only_single_char :
    (∀ fuel : Nat, parseProgram fuel "\"ab\"." =
      Except.error (PErr.lex 1 ("\"ab\".".toList))) ∧
    (∀ fuel : Nat, parseProgram fuel "\"\"." =
      Except.error (PErr.lex 1 ("\"\".".toList))) ∧
    parseProgram 20 "\"a\"." = Except.ok [Stmt.bare (PTm.pval (Value.str "a"))] ∧
    tryTokens ("\"a\"".toList) = some (TokKind.stringT, "\"a\"".toList, []) :=
  ⟨fun _ => rfl, fun _ => rfl, rfl, rfl⟩

/-- Claim C6, code behaviour at the failing input: scan drops leading
whitespace without advancing the position counter, so the lexer failure on
the input consisting of a space followed by a tilde is reported at position
1 although the unconsumed text begins at 1-based position 2, exactly as for
the whitespace-free input consisting of the tilde alone, where position 1 is
correct; without intervening whitespace the offsets are correct, as the
missing-dot parse error on the single-character input shows. -/
theorem lex_error_position_ignores_whitespace :
    (∀ fuel : Nat, parseProgram fuel " ~" = Except.error (PErr.lex 1 ['~'])) ∧
    (∀ fuel : Nat, parseProgram fuel "~" = Except.error (PErr.lex 1 ['~'])) ∧
    " ~".toList = [' ', '~'] ∧
    parseProgram 20 "x ~" = Except.error (PErr.lex 2 ['~']) ∧
    "x ~".toList = ['x', ' ', '~'] ∧
    parseProgram 20 "x" = Except.error (PErr.parse 2 PMsg.dotExpected) :=
  ⟨fun _ => rfl, fun _ => rfl, rfl, rfl, rfl, rfl⟩

/-- Claim C8, counterexample: the source text consisting of the doubled-quote
encoding, quote a quote quote b quote followed by a dot, parses as the
application of the literal a to the literal b, two separate one-character
string tokens, and not as any single Literal term. -/
theorem doubled_quote_not_single_literal :
    parseProgram 20 "\"a\"\"b\"." =
      Except.ok [Stmt.bare (PTm.papp (PTm.pval (Value.str "a")) (PTm.pval (Value.str "b")))] ∧
    (∀ s : String,
      Stmt.bare (PTm.papp (PTm.pval (Value.str "a")) (PTm.pval (Value.str "b"))) ≠
        Stmt.bare (PTm.pval (Value.str s))) :=
  ⟨rfl, fun s => by simp⟩

/-- Claim C8, amended: the unescape step of the string branch of parse_expr
replaces each quote character by itself and is therefore the identity, so no
doubled-quote decoding occurs; rendering a string Literal wraps it in quotes
and escapes each embedded quote with a backslash; and the doubled-quote
input parses as an application of two separate one-character literals. -/
theorem string_unescape_identity_and_render :
    (∀ cs : List Char, unescapeWord cs = cs) ∧
    reprVal (Value.str "a\"b") = "\"a\\\"b\"" ∧
    parseProgram 20 "\"a\"\"b\"." =
      Except.ok [Stmt.bare (PTm.papp (PTm.pval (Value.str "a")) (PTm.pval (Value.str "b")))] := by
  refine ⟨fun cs => ?_, rfl, rfl⟩
  have hid : (fun ch : Char => if ch = '"' then '"' else ch) = id := by
    funext ch
    by_cases h : ch = '"'
    · simp [h]
    · simp [h]
  simp [unescapeWord, hid]

/-- Claim C10: a statement with no atoms before its terminating dot parses
successfully to the absent term: parse_expr returns its accumulator untouched
whenever the current token is the dot, so the input consisting only of a dot
yields one bare absent statement, and a trailing empty statement after a
nonempty one is likewise accepted. -/
theorem parse_empty_statement_ok :
    parseProgram 20 "." = Except.ok [Stmt.bare PTm.pnil] ∧
    parseProgram 20 "x.." = Except.ok [Stmt.bare (PTm.pvar "x"), Stmt.bare PTm.pnil] ∧
    (∀ (fuel : Nat) (acc : PTm) (st : PState), st.token = some TokKind.dot →
      parseExprLoop (fuel + 1) acc st = Except.ok (acc, st)) := by
  refine ⟨rfl, rfl, fun fuel acc st h => ?_⟩
  simp [parseExprLoop, h]

/-- Witness for claim C10: the general conjunct applies to the concrete state
whose current token is the dot, and the concrete parses succeed. -/
theorem parse_empty_statement_ok_witness :
    parseExprLoop 5 PTm.pnil { s := [], pos := 2, token := some TokKind.dot, word := ['.'] }
      = Except.ok (PTm.pnil, { s := [], pos := 2, token := some TokKind.dot, word := ['.'] }) :=
  parse_empty_statement_ok.2.2 4 PTm.pnil
    { s := [], pos := 2, token := some TokKind.dot, word := ['.'] } rfl
